import Mathlib

/-!
Shallow embedding of the `lines_u8` crate (src/src/lib.rs): the line scanner
`read_line_u8` and the iterator adaptor `LinesIter::next`, over a model of a
`BufRead` byte source with `fill_buf` / `consume`.

Bytes are `Nat` (10 = b, 13 = r in the source's notation). Errors are
modelled by an error code (`Nat`); the `ErrorKind::Interrupted` case is a
distinguished fetch outcome. The source is a state: the currently buffered,
unconsumed bytes, plus a script of future fetch outcomes of the underlying
reader. `fill_buf` returns the buffer when it is non-empty and otherwise pops
the next scripted outcome (an empty script means permanent end-of-stream),
matching the `BufRead` contract that the buffer is refilled only when empty.
-/

/-- Model of `memchr::memchr b l`: index of the first occurrence of byte
`b` in `l`. -/
def memchr (b : Nat) : List Nat → Option Nat
  | [] => none
  | x :: xs => if x = b then some 0 else (memchr b xs).map (· + 1)

/-- One outcome of the underlying reader feeding `fill_buf`:
a chunk of fresh bytes, an `ErrorKind::Interrupted` error, or a fatal error. -/
inductive Fetch where
  | chunk (data : List Nat)
  | interrupted
  | fatal (e : Nat)
deriving DecidableEq

/-- A `BufRead` source: buffered unconsumed bytes plus the script of the
underlying reader's future fetch outcomes. -/
structure Source where
  buffer : List Nat
  future : List Fetch
deriving DecidableEq

/-- Result of one `fill_buf` call. -/
inductive FillResult where
  | ok (window : List Nat)
  | interrupted
  | fatal (e : Nat)
deriving DecidableEq

/-- Model of `fill_buf`: return the buffered bytes, refilling from the
underlying reader only if the buffer is empty; an empty window means
end-of-stream. -/
def fillBuf (s : Source) : FillResult × Source :=
  match s.buffer with
  | [] =>
    match s.future with
    | [] => (FillResult.ok [], s)
    | Fetch.chunk d :: rest => (FillResult.ok d, ⟨d, rest⟩)
    | Fetch.interrupted :: rest => (FillResult.interrupted, ⟨[], rest⟩)
    | Fetch.fatal e :: rest => (FillResult.fatal e, ⟨[], rest⟩)
  | _ => (FillResult.ok s.buffer, s)

/-- Model of `consume(n)`: drop the first `n` bytes of the buffer. -/
def Source.consume (s : Source) (n : Nat) : Source :=
  ⟨s.buffer.drop n, s.future⟩

/-- The source holds no more data: nothing buffered and nothing to fetch. -/
def Source.atEof (s : Source) : Prop :=
  s.buffer = [] ∧ s.future = []

instance (s : Source) : Decidable s.atEof := by
  unfold Source.atEof; infer_instance

/-- The body of `read_line_u8`'s match on one visible window `available`:
returns `(done, used, appended)`, where `appended` is the slice pushed onto
`buf` by `extend_from_slice`. Mirrors src/src/lib.rs lines 48-91. -/
def scanWindow (available : List Nat) : Bool × Nat × List Nat :=
  match memchr 10 available, memchr 13 available with
  | some nl, some cr =>
    if nl < cr then (true, nl + 1, available.take nl)
    else if cr = nl - 1 then (true, nl + 1, available.take (nl - 1))
    else (true, cr + 1, available.take cr)
  | some nl, none => (true, nl + 1, available.take nl)
  | none, some cr =>
    if available.length = 1 then (true, 1, available.take cr)
    else if available.length - 1 = cr then (false, cr - 1, available.take (cr - 1))
    else (true, cr + 1, available.take cr)
  | none, none => (false, available.length, available)

/-- The `read_line_u8` loop with its running totals: `buf` is the accumulator
(already holding what was appended so far), `read` the bytes consumed so far.
The `Nat` fuel bounds the number of loop iterations (the outer `Option` is
`none` only on fuel exhaustion). Mirrors src/src/lib.rs lines 39-99. -/
def readLineU8Aux : Nat → Source → List Nat → Nat →
    Option (Except Nat (Nat × List Nat) × Source)
  | 0, _, _, _ => none
  | fuel + 1, s, buf, read =>
    match fillBuf s with
    | (FillResult.interrupted, s') => readLineU8Aux fuel s' buf read
    | (FillResult.fatal e, s') => some (Except.error e, s')
    | (FillResult.ok available, s') =>
      match scanWindow available with
      | (done, used, app) =>
        if done = true ∨ used = 0 then
          some (Except.ok (read + used, buf ++ app), s'.consume used)
        else
          readLineU8Aux fuel (s'.consume used) (buf ++ app) (read + used)

/-- Model of `read_line_u8(r, buf)`: scan one line, returning
`Ok (bytes_consumed, final accumulator)` or `Err e`, with the final source. -/
def readLineU8 (fuel : Nat) (s : Source) (buf : List Nat) :
    Option (Except Nat (Nat × List Nat) × Source) :=
  readLineU8Aux fuel s buf 0

/-- Model of `LinesIter::next`: run the scanner with a fresh empty accumulator;
`Ok(0)` becomes no item (`none`), `Ok(n)` with `n > 0` yields the line,
`Err e` yields the error. Mirrors src/src/lib.rs lines 28-35. -/
def linesNext (fuel : Nat) (s : Source) :
    Option (Option (Except Nat (List Nat)) × Source) :=
  match readLineU8 fuel s [] with
  | none => none
  | some (Except.ok (0, _), s') => some (none, s')
  | some (Except.ok (_ + 1, line), s') => some (some (Except.ok line), s')
  | some (Except.error e, s') => some (some (Except.error e), s')

/-- All chunks the underlying reader will ever deliver are non-empty, so the
source's `peek` returns an empty window only at permanent end-of-stream. -/
def goodSource (s : Source) : Prop :=
  ∀ d, Fetch.chunk d ∈ s.future → d ≠ []

/-- C1: the claim says a result of `Ok(0)` means the source was already at
end-of-stream. The code violates this: with `"a\r"` (bytes `[97, 13]`)
buffered, `read_line_u8` takes the ambiguous trailing-`\r` branch with
`cr_idx = 1`, consumes `cr_idx - 1 = 0` bytes and hits the `used == 0` early
return, yielding `Ok(0)` while two unconsumed bytes remain — the source is
not at end-of-stream (though indeed nothing was consumed or appended). -/
theorem c1_ok_zero_not_eof :
    readLineU8 1 ⟨[97, 13], []⟩ [] =
      some (Except.ok (0, []), ⟨[97, 13], []⟩) ∧
    ¬ Source.atEof ⟨[97, 13], []⟩ := by
  constructor
  · rfl
  · decide

/-- C2: in the ambiguous case (window longer than one byte, no newline, first
`\r` the last byte), the claim says the scanner appends the bytes strictly
before the `\r` and consumes up to but not including it — on window
`"hi\r"` (`[104, 105, 13]`) that would be `(false, 2, [104, 105])`. The code
instead appends `available[..cr_idx-1]` and consumes `cr_idx - 1`:
`(false, 1, [104])`, leaving `[105, 13]`, not the `\r`, at the front of the
next window. -/
theorem c2_ambiguous_branch_off_by_one :
    scanWindow [104, 105, 13] = (false, 1, [104]) ∧
    scanWindow [104, 105, 13] ≠ (false, 2, [104, 105]) := by
  constructor
  · rfl
  · decide

/-- C3: the claim says a `\r\n`-terminated line is never split even when a
refill boundary falls between `\r` and `\n`, and each scan consumes
payload + 2. For `"xy\r\n"` delivered as chunks `"xy\r"` then `"\n"`, the
scan should return `Ok(4)` with line `[120, 121]`; instead the off-by-one
in the ambiguous branch makes it return `Ok(1)` with line `[120]`, leaving
`[121, 13]` buffered and the `\n` chunk unfetched. -/
theorem c3_crlf_split_lost :
    readLineU8 2 ⟨[], [Fetch.chunk [120, 121, 13], Fetch.chunk [10]]⟩ [] =
      some (Except.ok (1, [120]), ⟨[121, 13], [Fetch.chunk [10]]⟩) := rfl

/-- C4: the concrete scenario on input `"Some\r text\r\n\n\r"` (bytes
`[83, 111, 109, 101, 13, 32, 116, 101, 120, 116, 13, 10, 10, 13]`) held as
a `Cursor`-style fully buffered source: five successive calls with a fresh
accumulator return consumed 5 / line `"Some"`, consumed 7 / line `" text"`,
consumed 1 / empty line, consumed 1 / empty line, consumed 0. -/
theorem c4_concrete_scenario :
    readLineU8 1 ⟨[83, 111, 109, 101, 13, 32, 116, 101, 120, 116, 13, 10, 10, 13], []⟩ [] =
      some (Except.ok (5, [83, 111, 109, 101]),
        ⟨[32, 116, 101, 120, 116, 13, 10, 10, 13], []⟩) ∧
    readLineU8 1 ⟨[32, 116, 101, 120, 116, 13, 10, 10, 13], []⟩ [] =
      some (Except.ok (7, [32, 116, 101, 120, 116]), ⟨[10, 13], []⟩) ∧
    readLineU8 1 ⟨[10, 13], []⟩ [] =
      some (Except.ok (1, []), ⟨[13], []⟩) ∧
    readLineU8 1 ⟨[13], []⟩ [] =
      some (Except.ok (1, []), ⟨[], []⟩) ∧
    readLineU8 1 ⟨[], []⟩ [] =
      some (Except.ok (0, []), ⟨[], []⟩) :=
  ⟨rfl, rfl, rfl, rfl, rfl⟩

/-- C5: the claim says a `\r`-terminated input behaves identically to the
same input `\n`-terminated, consuming payload + 1. On fully buffered
`"ab\r"` the scan should return `Ok(3)` with line `[97, 98]` as the `"ab\n"`
run does; instead it returns `Ok(1)` with line `[97]` and strands
`[98, 13]`. -/
theorem c5_cr_terminated_differs :
    readLineU8 2 ⟨[97, 98, 13], []⟩ [] =
      some (Except.ok (1, [97]), ⟨[98, 13], []⟩) ∧
    readLineU8 2 ⟨[97, 98, 10], []⟩ [] =
      some (Except.ok (3, [97, 98]), ⟨[], []⟩) :=
  ⟨rfl, rfl⟩

/-- C6: at any point in a scan (any accumulator `buf`, any running total
`read`), an interrupted fetch makes the scanner retry the fetch with the
accumulator and totals untouched, no bytes consumed and no error surfaced;
a fatal fetch failure is returned unchanged as the scan's error result, not
as a partial-line success, even when `buf` and `read` are non-trivial. -/
theorem c6_error_handling (rest : List Fetch) (buf : List Nat)
    (read fuel e : Nat) :
    readLineU8Aux (fuel + 1) ⟨[], Fetch.interrupted :: rest⟩ buf read =
      readLineU8Aux fuel ⟨[], rest⟩ buf read ∧
    readLineU8Aux (fuel + 1) ⟨[], Fetch.fatal e :: rest⟩ buf read =
      some (Except.error e, ⟨[], rest⟩) :=
  ⟨rfl, rfl⟩

/-- C7: each pull of the lines iterator runs the scanner on a fresh empty
accumulator and dispatches on its result: a scan consuming 0 bytes ends the
sequence with no item; a successful scan consuming more than 0 bytes yields
the accumulated bytes as one `Ok` item (even an empty payload); a failed
scan yields the error as one `Err` item. -/
theorem c7_lines_next_dispatch (fuel : Nat) (s s' : Source) (n : Nat)
    (line : List Nat) (e : Nat) :
    (readLineU8 fuel s [] = some (Except.ok (0, line), s') →
      linesNext fuel s = some (none, s')) ∧
    (readLineU8 fuel s [] = some (Except.ok (n + 1, line), s') →
      linesNext fuel s = some (some (Except.ok line), s')) ∧
    (readLineU8 fuel s [] = some (Except.error e, s') →
      linesNext fuel s = some (some (Except.error e), s')) := by
  refine ⟨fun h => ?_, fun h => ?_, fun h => ?_⟩ <;> simp [linesNext, h]

/-- Witness for C7: the three dispatch cases at concrete sources — an empty
source ends the sequence, a buffered `"a\n"` yields line `"a"`, and a source
whose first fetch fails fatally yields that error as an item. -/
theorem c7_lines_next_dispatch_witness :
    linesNext 1 ⟨[], []⟩ = some (none, ⟨[], []⟩) ∧
    linesNext 1 ⟨[97, 10], []⟩ = some (some (Except.ok [97]), ⟨[], []⟩) ∧
    linesNext 1 ⟨[], [Fetch.fatal 7]⟩ =
      some (some (Except.error 7), ⟨[], []⟩) :=
  ⟨(c7_lines_next_dispatch 1 ⟨[], []⟩ ⟨[], []⟩ 0 [] 0).1 rfl,
   (c7_lines_next_dispatch 1 ⟨[97, 10], []⟩ ⟨[], []⟩ 1 [97] 0).2.1 rfl,
   (c7_lines_next_dispatch 1 ⟨[], [Fetch.fatal 7]⟩ ⟨[], []⟩ 0 [] 7).2.2 rfl⟩

/-- If `memchr` finds no occurrence, the byte is absent from the list. -/
theorem memchr_eq_none (b : Nat) :
    ∀ l : List Nat, memchr b l = none → ∀ c ∈ l, c ≠ b := by
  intro l
  induction l with
  | nil => intro _ c hc; simp at hc
  | cons x xs ih =>
    intro h c hc
    by_cases hx : x = b
    · simp [memchr, hx] at h
    · rw [List.mem_cons] at hc
      rcases hc with rfl | hc
      · exact hx
      · exact ih (by simpa [memchr, hx] using h) c hc

/-- If `memchr` finds index `i`, then `i` is in range, the byte sits at `i`,
and the byte is absent from the prefix before `i`. -/
theorem memchr_eq_some (b : Nat) :
    ∀ (l : List Nat) (i : Nat), memchr b l = some i →
      i < l.length ∧ l[i]? = some b ∧ ∀ c ∈ l.take i, c ≠ b := by
  intro l
  induction l with
  | nil => intro i h; simp [memchr] at h
  | cons x xs ih =>
    intro i h
    by_cases hx : x = b
    · simp [memchr, hx] at h
      subst h
      simp [hx]
    · simp [memchr, hx] at h
      obtain ⟨j, hj, rfl⟩ := h
      obtain ⟨h1, h2, h3⟩ := ih j hj
      refine ⟨by simpa using Nat.succ_lt_succ h1, by simpa using h2, ?_⟩
      intro c hc
      rw [List.take_succ_cons, List.mem_cons] at hc
      rcases hc with rfl | hc
      · exact hx
      · exact h3 c hc

/-- Membership in a shorter prefix implies membership in a longer one. -/
theorem mem_take_of_le {l : List Nat} {n m : Nat} (h : n ≤ m) :
    ∀ c ∈ l.take n, c ∈ l.take m := by
  intro c hc
  have ht : l.take n = (l.take m).take n := by
    rw [List.take_take, Nat.min_eq_left h]
  rw [ht] at hc
  exact List.take_subset _ _ hc
/-- Reduction of `scanWindow` when both a newline and a carriage return are
found in the window. -/
theorem scanWindow_some_some (w : List Nat) (nl cr : Nat)
    (hnl : memchr 10 w = some nl) (hcr : memchr 13 w = some cr) :
    scanWindow w =
      if nl < cr then (true, nl + 1, w.take nl)
      else if cr = nl - 1 then (true, nl + 1, w.take (nl - 1))
      else (true, cr + 1, w.take cr) := by
  unfold scanWindow
  rw [hnl, hcr]

/-- Reduction of `scanWindow` when only a newline is found. -/
theorem scanWindow_some_none (w : List Nat) (nl : Nat)
    (hnl : memchr 10 w = some nl) (hcr : memchr 13 w = none) :
    scanWindow w = (true, nl + 1, w.take nl) := by
  unfold scanWindow
  rw [hnl, hcr]

/-- Reduction of `scanWindow` when only a carriage return is found. -/
theorem scanWindow_none_some (w : List Nat) (cr : Nat)
    (hnl : memchr 10 w = none) (hcr : memchr 13 w = some cr) :
    scanWindow w =
      if w.length = 1 then (true, 1, w.take cr)
      else if w.length - 1 = cr then (false, cr - 1, w.take (cr - 1))
      else (true, cr + 1, w.take cr) := by
  unfold scanWindow
  rw [hnl, hcr]

/-- Reduction of `scanWindow` when no terminator is found. -/
theorem scanWindow_none_none (w : List Nat)
    (hnl : memchr 10 w = none) (hcr : memchr 13 w = none) :
    scanWindow w = (false, w.length, w) := by
  unfold scanWindow
  rw [hnl, hcr]

/-- Every slice a scan round appends stops strictly before the first
terminator it acts on, so it contains neither a newline nor a carriage
return. -/
theorem scanWindow_app_clean :
    ∀ (w : List Nat) (d : Bool) (u : Nat) (app : List Nat),
      scanWindow w = (d, u, app) → ∀ c ∈ app, c ≠ 10 ∧ c ≠ 13 := by
  intro w d u app h c hc
  cases hnl : memchr 10 w with
  | some nl =>
    obtain ⟨hnlen, hnlget, hnltake⟩ := memchr_eq_some 10 w nl hnl
    cases hcr : memchr 13 w with
    | some cr =>
      obtain ⟨hcrlen, hcrget, hcrtake⟩ := memchr_eq_some 13 w cr hcr
      rw [scanWindow_some_some w nl cr hnl hcr] at h
      by_cases h1 : nl < cr
      · rw [if_pos h1] at h
        simp only [Prod.mk.injEq] at h
        obtain ⟨-, -, happ⟩ := h
        subst happ
        exact ⟨hnltake c hc, hcrtake c (mem_take_of_le (le_of_lt h1) c hc)⟩
      · rw [if_neg h1] at h
        by_cases h2 : cr = nl - 1
        · rw [if_pos h2] at h
          simp only [Prod.mk.injEq] at h
          obtain ⟨-, -, happ⟩ := h
          subst happ
          refine ⟨hnltake c (mem_take_of_le (Nat.sub_le nl 1) c hc), ?_⟩
          exact hcrtake c (by rw [← h2] at hc; exact hc)
        · rw [if_neg h2] at h
          simp only [Prod.mk.injEq] at h
          obtain ⟨-, -, happ⟩ := h
          subst happ
          exact ⟨hnltake c (mem_take_of_le (Nat.le_of_not_lt h1) c hc),
            hcrtake c hc⟩
    | none =>
      rw [scanWindow_some_none w nl hnl hcr] at h
      simp only [Prod.mk.injEq] at h
      obtain ⟨-, -, happ⟩ := h
      subst happ
      exact ⟨hnltake c hc, memchr_eq_none 13 w hcr c (List.take_subset _ _ hc)⟩
  | none =>
    cases hcr : memchr 13 w with
    | some cr =>
      obtain ⟨hcrlen, hcrget, hcrtake⟩ := memchr_eq_some 13 w cr hcr
      rw [scanWindow_none_some w cr hnl hcr] at h
      by_cases h1 : w.length = 1
      · rw [if_pos h1] at h
        simp only [Prod.mk.injEq] at h
        obtain ⟨-, -, happ⟩ := h
        subst happ
        exact ⟨memchr_eq_none 10 w hnl c (List.take_subset _ _ hc),
          hcrtake c hc⟩
      · rw [if_neg h1] at h
        by_cases h2 : w.length - 1 = cr
        · rw [if_pos h2] at h
          simp only [Prod.mk.injEq] at h
          obtain ⟨-, -, happ⟩ := h
          subst happ
          exact ⟨memchr_eq_none 10 w hnl c (List.take_subset _ _ hc),
            hcrtake c (mem_take_of_le (Nat.sub_le cr 1) c hc)⟩
        · rw [if_neg h2] at h
          simp only [Prod.mk.injEq] at h
          obtain ⟨-, -, happ⟩ := h
          subst happ
          exact ⟨memchr_eq_none 10 w hnl c (List.take_subset _ _ hc),
            hcrtake c hc⟩
    | none =>
      rw [scanWindow_none_none w hnl hcr] at h
      simp only [Prod.mk.injEq] at h
      obtain ⟨-, -, happ⟩ := h
      subst happ
      exact ⟨memchr_eq_none 10 w hnl c hc, memchr_eq_none 13 w hcr c hc⟩

/-- A round that reports a found boundary always consumes at least one
byte. -/
theorem scanWindow_done_used_pos (w : List Nat) (u : Nat) (app : List Nat)
    (h : scanWindow w = (true, u, app)) : 1 ≤ u := by
  cases hnl : memchr 10 w with
  | some nl =>
    cases hcr : memchr 13 w with
    | some cr =>
      rw [scanWindow_some_some w nl cr hnl hcr] at h
      by_cases h1 : nl < cr
      · rw [if_pos h1] at h
        simp only [Prod.mk.injEq] at h
        obtain ⟨-, hu, -⟩ := h
        omega
      · rw [if_neg h1] at h
        by_cases h2 : cr = nl - 1
        · rw [if_pos h2] at h
          simp only [Prod.mk.injEq] at h
          obtain ⟨-, hu, -⟩ := h
          omega
        · rw [if_neg h2] at h
          simp only [Prod.mk.injEq] at h
          obtain ⟨-, hu, -⟩ := h
          omega
    | none =>
      rw [scanWindow_some_none w nl hnl hcr] at h
      simp only [Prod.mk.injEq] at h
      obtain ⟨-, hu, -⟩ := h
      omega
  | none =>
    cases hcr : memchr 13 w with
    | some cr =>
      rw [scanWindow_none_some w cr hnl hcr] at h
      by_cases h1 : w.length = 1
      · rw [if_pos h1] at h
        simp only [Prod.mk.injEq] at h
        obtain ⟨-, hu, -⟩ := h
        omega
      · rw [if_neg h1] at h
        by_cases h2 : w.length - 1 = cr
        · rw [if_pos h2] at h
          simp at h
        · rw [if_neg h2] at h
          simp only [Prod.mk.injEq] at h
          obtain ⟨-, hu, -⟩ := h
          omega
    | none =>
      rw [scanWindow_none_none w hnl hcr] at h
      simp at h

/-- The only window on which a round neither finds a boundary nor consumes
anything is a two-byte window whose first byte is not a terminator and whose
second byte is a carriage return; such a round appends nothing. -/
theorem scanWindow_false_zero (w : List Nat) (app : List Nat)
    (h : scanWindow w = (false, 0, app)) (hw : w ≠ []) :
    ∃ x, x ≠ 10 ∧ x ≠ 13 ∧ w = [x, 13] ∧ app = [] := by
  cases hnl : memchr 10 w with
  | some nl =>
    cases hcr : memchr 13 w with
    | some cr =>
      rw [scanWindow_some_some w nl cr hnl hcr] at h
      by_cases h1 : nl < cr
      · rw [if_pos h1] at h
        simp at h
      · rw [if_neg h1] at h
        by_cases h2 : cr = nl - 1
        · rw [if_pos h2] at h
          simp at h
        · rw [if_neg h2] at h
          simp at h
    | none =>
      rw [scanWindow_some_none w nl hnl hcr] at h
      simp at h
  | none =>
    cases hcr : memchr 13 w with
    | none =>
      rw [scanWindow_none_none w hnl hcr] at h
      simp only [Prod.mk.injEq] at h
      obtain ⟨-, hlen, -⟩ := h
      exact absurd (List.length_eq_zero.mp hlen) hw
    | some cr =>
      obtain ⟨hcrlen, hcrget, hcrtake⟩ := memchr_eq_some 13 w cr hcr
      rw [scanWindow_none_some w cr hnl hcr] at h
      by_cases h1 : w.length = 1
      · rw [if_pos h1] at h
        simp at h
      · rw [if_neg h1] at h
        by_cases h2 : w.length - 1 = cr
        · rw [if_pos h2] at h
          simp only [Prod.mk.injEq] at h
          obtain ⟨-, hu, happ⟩ := h
          have hcr1 : cr = 1 := by omega
          subst hcr1
          have hlen2 : w.length = 2 := by omega
          obtain ⟨a, b2, rfl⟩ := List.length_eq_two.mp hlen2
          have hb : b2 = 13 := by simpa using hcrget
          refine ⟨a, memchr_eq_none 10 _ hnl a (by simp),
            hcrtake a (by simp), by rw [hb], ?_⟩
          rw [← happ]
          simp
        · rw [if_neg h2] at h
          simp at h

/-- Unfolding of a loop round when the fetch is interrupted: the round
silently retries with accumulator and totals untouched. -/
theorem readLineU8Aux_succ_interrupted (fuel : Nat) (s s2 : Source)
    (buf : List Nat) (read : Nat)
    (hfb : fillBuf s = (FillResult.interrupted, s2)) :
    readLineU8Aux (fuel + 1) s buf read = readLineU8Aux fuel s2 buf read := by
  simp only [readLineU8Aux, hfb]

/-- Unfolding of a loop round when the fetch fails fatally: the error is
returned unchanged. -/
theorem readLineU8Aux_succ_fatal (fuel : Nat) (s s2 : Source)
    (buf : List Nat) (read e : Nat)
    (hfb : fillBuf s = (FillResult.fatal e, s2)) :
    readLineU8Aux (fuel + 1) s buf read = some (Except.error e, s2) := by
  simp only [readLineU8Aux, hfb]

/-- Unfolding of a loop round when the fetch yields a window. -/
theorem readLineU8Aux_succ_ok (fuel : Nat) (s s2 : Source)
    (buf : List Nat) (read : Nat) (available : List Nat) (d : Bool)
    (u : Nat) (app : List Nat)
    (hfb : fillBuf s = (FillResult.ok available, s2))
    (hscan : scanWindow available = (d, u, app)) :
    readLineU8Aux (fuel + 1) s buf read =
      if d = true ∨ u = 0 then
        some (Except.ok (read + u, buf ++ app), s2.consume u)
      else readLineU8Aux fuel (s2.consume u) (buf ++ app) (read + u) := by
  simp only [readLineU8Aux, hfb, hscan]

/-- The consumed-byte total reported by a successful scan is at least the
running total it started from. -/
theorem readLineU8Aux_read_le :
    ∀ (fuel : Nat) (s : Source) (buf : List Nat) (read n : Nat)
      (b : List Nat) (s1 : Source),
      readLineU8Aux fuel s buf read = some (Except.ok (n, b), s1) →
      read ≤ n := by
  intro fuel
  induction fuel with
  | zero => intro s buf read n b s1 h; simp [readLineU8Aux] at h
  | succ fuel ih =>
    intro s buf read n b s1 h
    rcases hfb : fillBuf s with ⟨fr, s2⟩
    cases fr with
    | interrupted =>
      rw [readLineU8Aux_succ_interrupted fuel s s2 buf read hfb] at h
      exact ih s2 buf read n b s1 h
    | fatal e =>
      rw [readLineU8Aux_succ_fatal fuel s s2 buf read e hfb] at h
      simp at h
    | ok available =>
      rcases hscan : scanWindow available with ⟨d, u, app⟩
      rw [readLineU8Aux_succ_ok fuel s s2 buf read available d u app hfb hscan] at h
      by_cases hdone : d = true ∨ u = 0
      · rw [if_pos hdone] at h
        simp only [Option.some.injEq, Prod.mk.injEq, Except.ok.injEq] at h
        obtain ⟨⟨hn, -⟩, -⟩ := h
        omega
      · rw [if_neg hdone] at h
        have := ih _ _ _ _ _ _ h
        omega

/-- Every byte of a successful scan's final accumulator was either already
in the caller's accumulator or appended by some round, hence not a
terminator byte. -/
theorem readLineU8Aux_buf_clean :
    ∀ (fuel : Nat) (s : Source) (buf : List Nat) (read n : Nat)
      (b : List Nat) (s1 : Source),
      readLineU8Aux fuel s buf read = some (Except.ok (n, b), s1) →
      ∀ c ∈ b, c ∈ buf ∨ (c ≠ 10 ∧ c ≠ 13) := by
  intro fuel
  induction fuel with
  | zero => intro s buf read n b s1 h; simp [readLineU8Aux] at h
  | succ fuel ih =>
    intro s buf read n b s1 h c hc
    rcases hfb : fillBuf s with ⟨fr, s2⟩
    cases fr with
    | interrupted =>
      rw [readLineU8Aux_succ_interrupted fuel s s2 buf read hfb] at h
      exact ih s2 buf read n b s1 h c hc
    | fatal e =>
      rw [readLineU8Aux_succ_fatal fuel s s2 buf read e hfb] at h
      simp at h
    | ok available =>
      rcases hscan : scanWindow available with ⟨d, u, app⟩
      rw [readLineU8Aux_succ_ok fuel s s2 buf read available d u app hfb hscan] at h
      by_cases hdone : d = true ∨ u = 0
      · rw [if_pos hdone] at h
        simp only [Option.some.injEq, Prod.mk.injEq, Except.ok.injEq] at h
        obtain ⟨⟨-, hb⟩, -⟩ := h
        subst hb
        rcases List.mem_append.mp hc with h1 | h2
        · exact Or.inl h1
        · exact Or.inr (scanWindow_app_clean available d u app hscan c h2)
      · rw [if_neg hdone] at h
        rcases ih _ _ _ _ _ _ h c hc with hmem | hclean
        · rcases List.mem_append.mp hmem with h1 | h2
          · exact Or.inl h1
          · exact Or.inr (scanWindow_app_clean available d u app hscan c h2)
        · exact Or.inr hclean

/-- At true end-of-stream a round consumes nothing, appends nothing, and
reports the accumulated totals with the source unchanged. -/
theorem readLineU8Aux_eof (fuel : Nat) (buf : List Nat) (read : Nat) :
    readLineU8Aux (fuel + 1) ⟨[], []⟩ buf read =
      some (Except.ok (read, buf), ⟨[], []⟩) := by
  have hfb : fillBuf ⟨[], []⟩ = (FillResult.ok [], ⟨[], []⟩) := rfl
  have hscan : scanWindow [] = (false, 0, []) := rfl
  rw [readLineU8Aux_succ_ok fuel _ _ buf read [] false 0 [] hfb hscan]
  simp [Source.consume]

/-- On a buffered two-byte window whose first byte is not a terminator and
whose second is a carriage return, a round consumes nothing and returns
immediately, leaving the source unchanged. -/
theorem readLineU8Aux_stuck (fuel : Nat) (x : Nat) (f : List Fetch)
    (buf : List Nat) (read : Nat) (hx10 : x ≠ 10) (hx13 : x ≠ 13) :
    readLineU8Aux (fuel + 1) ⟨[x, 13], f⟩ buf read =
      some (Except.ok (read, buf), ⟨[x, 13], f⟩) := by
  have hfb : fillBuf ⟨[x, 13], f⟩ =
      (FillResult.ok [x, 13], ⟨[x, 13], f⟩) := rfl
  have h10 : memchr 10 [x, 13] = none := by simp [memchr, hx10]
  have h13 : memchr 13 [x, 13] = some 1 := by simp [memchr, hx13]
  have hscan : scanWindow [x, 13] = (false, 0, []) := by
    rw [scanWindow_none_some [x, 13] 1 h10 h13]
    simp
  rw [readLineU8Aux_succ_ok fuel _ _ buf read [x, 13] false 0 [] hfb hscan]
  simp [Source.consume]

/-- Popping a non-empty chunk into the empty buffer and then scanning is the
same as scanning with that chunk already buffered. -/
theorem readLineU8Aux_pop_chunk (fuel : Nat) (dta : List Nat)
    (rest : List Fetch) (buf : List Nat) (read : Nat) (hd : dta ≠ []) :
    readLineU8Aux (fuel + 1) ⟨[], Fetch.chunk dta :: rest⟩ buf read =
      readLineU8Aux (fuel + 1) ⟨dta, rest⟩ buf read := by
  cases dta with
  | nil => exact absurd rfl hd
  | cons y ys => rfl

/-- A round on a non-empty buffer that ends an entire scan with nothing
consumed must have hit the stuck two-byte window, which it leaves intact. -/
theorem readLineU8Aux_buffer_zero (fuel : Nat) (y : Nat) (ys : List Nat)
    (fut : List Fetch) (buf : List Nat) (read : Nat) (b : List Nat)
    (s1 : Source)
    (h : readLineU8Aux (fuel + 1) ⟨y :: ys, fut⟩ buf read =
      some (Except.ok (read, b), s1)) :
    ∃ x, x ≠ 10 ∧ x ≠ 13 ∧ s1 = ⟨[x, 13], fut⟩ := by
  have hfb : fillBuf ⟨y :: ys, fut⟩ =
      (FillResult.ok (y :: ys), ⟨y :: ys, fut⟩) := rfl
  rcases hscan : scanWindow (y :: ys) with ⟨d, u, app⟩
  rw [readLineU8Aux_succ_ok fuel _ _ buf read (y :: ys) d u app hfb hscan] at h
  by_cases hdone : d = true ∨ u = 0
  · rw [if_pos hdone] at h
    simp only [Option.some.injEq, Prod.mk.injEq, Except.ok.injEq] at h
    obtain ⟨⟨hn, -⟩, hs⟩ := h
    have hu0 : u = 0 := by omega
    subst hu0
    cases d with
    | true =>
      have := scanWindow_done_used_pos (y :: ys) 0 app hscan
      omega
    | false =>
      obtain ⟨x, hx10, hx13, hwav, -⟩ :=
        scanWindow_false_zero (y :: ys) app hscan (by simp)
      refine ⟨x, hx10, hx13, ?_⟩
      rw [← hs]
      simp [Source.consume, hwav]
  · rw [if_neg hdone] at h
    have hle := readLineU8Aux_read_le fuel _ _ _ _ _ _ h
    push_neg at hdone
    omega

/-- A scan that succeeds with nothing consumed leaves the source either at
true end-of-stream or stuck on a two-byte `[x, CR]` buffer, provided all
future chunks are non-empty. -/
theorem readLineU8Aux_zero_char :
    ∀ (fuel : Nat) (s : Source) (buf : List Nat) (read : Nat)
      (b : List Nat) (s1 : Source), goodSource s →
      readLineU8Aux fuel s buf read = some (Except.ok (read, b), s1) →
      s1 = ⟨[], []⟩ ∨ ∃ x f, x ≠ 10 ∧ x ≠ 13 ∧ s1 = ⟨[x, 13], f⟩ := by
  intro fuel
  induction fuel with
  | zero => intro s buf read b s1 _ h; simp [readLineU8Aux] at h
  | succ fuel ih =>
    rintro ⟨sbuf, sfut⟩ buf read b s1 hg h
    cases sbuf with
    | cons y ys =>
      obtain ⟨x, hx10, hx13, hs⟩ :=
        readLineU8Aux_buffer_zero fuel y ys sfut buf read b s1 h
      exact Or.inr ⟨x, sfut, hx10, hx13, hs⟩
    | nil =>
      cases sfut with
      | nil =>
        rw [readLineU8Aux_eof fuel buf read] at h
        simp only [Option.some.injEq, Prod.mk.injEq, Except.ok.injEq] at h
        exact Or.inl h.2.symm
      | cons f rest =>
        cases f with
        | chunk dta =>
          have hd : dta ≠ [] := hg dta (List.mem_cons_self _ _)
          rw [readLineU8Aux_pop_chunk fuel dta rest buf read hd] at h
          cases dta with
          | nil => exact absurd rfl hd
          | cons y ys =>
            obtain ⟨x, hx10, hx13, hs⟩ :=
              readLineU8Aux_buffer_zero fuel y ys rest buf read b s1 h
            exact Or.inr ⟨x, rest, hx10, hx13, hs⟩
        | interrupted =>
          have hfb : fillBuf ⟨[], Fetch.interrupted :: rest⟩ =
              (FillResult.interrupted, ⟨[], rest⟩) := rfl
          rw [readLineU8Aux_succ_interrupted fuel _ _ buf read hfb] at h
          exact ih ⟨[], rest⟩ buf read b s1
            (fun d hd => hg d (List.mem_cons_of_mem _ hd)) h
        | fatal e =>
          have hfb : fillBuf ⟨[], Fetch.fatal e :: rest⟩ =
              (FillResult.fatal e, ⟨[], rest⟩) := rfl
          rw [readLineU8Aux_succ_fatal fuel _ _ buf read e hfb] at h
          simp at h

/-- C8: for a source whose peek permanently returns an empty window once it
first does so (all scripted chunks non-empty), after a pull of the lines
iterator signals end-of-sequence, every subsequent pull (any positive fuel)
signals end-of-sequence again, with the source unchanged: once Exhausted,
never Active again. -/
theorem c8_exhaustion_idempotent (fuel fuelNext : Nat) (s s1 : Source)
    (hg : goodSource s) (h : linesNext fuel s = some (none, s1))
    (hf : 1 ≤ fuelNext) : linesNext fuelNext s1 = some (none, s1) := by
  obtain ⟨k, rfl⟩ : ∃ k, fuelNext = k + 1 := ⟨fuelNext - 1, by omega⟩
  unfold linesNext at h
  rcases hr : readLineU8 fuel s [] with _ | ⟨res, s2⟩
  · rw [hr] at h
    simp at h
  · rcases res with e | ⟨n, b⟩
    · rw [hr] at h
      simp at h
    · cases n with
      | succ n =>
        rw [hr] at h
        simp at h
      | zero =>
        rw [hr] at h
        simp only [Option.some.injEq, Prod.mk.injEq] at h
        obtain ⟨-, hs⟩ := h
        subst hs
        rcases readLineU8Aux_zero_char fuel s [] 0 b s2 hg hr with
          rfl | ⟨x, f, hx10, hx13, rfl⟩
        · unfold linesNext readLineU8
          rw [readLineU8Aux_eof k [] 0]
        · unfold linesNext readLineU8
          rw [readLineU8Aux_stuck k x f [] 0 hx10 hx13]

/-- Witness for C8: a source stuck on the buffer `"a\r"` reports
end-of-sequence on its first pull; the theorem then forces every later pull
to report end-of-sequence as well. -/
theorem c8_exhaustion_idempotent_witness :
    linesNext 2 ⟨[97, 13], []⟩ = some (none, ⟨[97, 13], []⟩) :=
  c8_exhaustion_idempotent 1 2 ⟨[97, 13], []⟩ ⟨[97, 13], []⟩
    (fun d hd => absurd hd (List.not_mem_nil _)) rfl (by omega)

/-- C9: the bytes the scanner appends in any branch of the window match
never include a newline or carriage-return byte, and consequently every
line the lines iterator yields contains no terminator byte anywhere. -/
theorem c9_no_terminators (w : List Nat) (d : Bool) (u : Nat)
    (app : List Nat) (fuel : Nat) (s s1 : Source) (line : List Nat) :
    (scanWindow w = (d, u, app) → ∀ c ∈ app, c ≠ 10 ∧ c ≠ 13) ∧
    (linesNext fuel s = some (some (Except.ok line), s1) →
      ∀ c ∈ line, c ≠ 10 ∧ c ≠ 13) := by
  refine ⟨fun h => scanWindow_app_clean w d u app h, fun h c hc => ?_⟩
  unfold linesNext at h
  rcases hr : readLineU8 fuel s [] with _ | ⟨res, s2⟩
  · rw [hr] at h
    simp at h
  · rcases res with e | ⟨n, b⟩
    · rw [hr] at h
      simp at h
    · cases n with
      | zero =>
        rw [hr] at h
        simp at h
      | succ n =>
        rw [hr] at h
        simp only [Option.some.injEq, Prod.mk.injEq, Except.ok.injEq] at h
        obtain ⟨hb, -⟩ := h
        rcases readLineU8Aux_buf_clean fuel s [] 0 (n + 1) b s2 hr c
            (by rw [hb]; exact hc) with hmem | hclean
        · simp at hmem
        · exact hclean

/-- Witness for C9: the newline arm on window `"a\n"` appends only the byte
97, which is no terminator; and the line the iterator yields from the
buffered source `"b\n"` consists of the byte 98, no terminator either. -/
theorem c9_no_terminators_witness :
    ((97 : Nat) ≠ 10 ∧ (97 : Nat) ≠ 13) ∧
    ((98 : Nat) ≠ 10 ∧ (98 : Nat) ≠ 13) :=
  ⟨(c9_no_terminators [97, 10] true 2 [97] 1 ⟨[98, 10], []⟩ ⟨[], []⟩
      [98]).1 rfl 97 (by simp),
   (c9_no_terminators [97, 10] true 2 [97] 1 ⟨[98, 10], []⟩ ⟨[], []⟩
      [98]).2 rfl 98 (by simp)⟩

/-- C10: the index arithmetic of `read_line_u8` cannot underflow. Whenever
the guard `cr_idx == nl_idx - 1` is evaluated (both indices found, the
earlier `nl_idx < cr_idx` arm not taken), `nl_idx` is at least 1; and in the
ambiguous lone-`\r` analysis (no newline found, window length not 1) the
window holds at least 2 bytes, so `available.len() - 1` is exact, and when
the `\r` sits at the window's last position its index is at least 1, so
`cr_idx - 1` is exact. -/
theorem c10_no_underflow (w : List Nat) (nl cr : Nat) :
    (memchr 10 w = some nl → memchr 13 w = some cr → ¬ nl < cr → 1 ≤ nl) ∧
    (memchr 10 w = none → memchr 13 w = some cr → w.length ≠ 1 →
      2 ≤ w.length ∧ (w.length - 1 = cr → 1 ≤ cr)) := by
  constructor
  · intro hnl hcr hlt
    obtain ⟨hnlen, hnlget, -⟩ := memchr_eq_some 10 w nl hnl
    obtain ⟨hcrlen, hcrget, -⟩ := memchr_eq_some 13 w cr hcr
    have hne : nl ≠ cr := by
      intro hEq
      rw [hEq] at hnlget
      rw [hnlget] at hcrget
      simp at hcrget
    omega
  · intro hnl hcr hlen1
    obtain ⟨hcrlen, -, -⟩ := memchr_eq_some 13 w cr hcr
    refine ⟨by omega, fun hc => by omega⟩

/-- Witness for C10: on window `"\r\n"` the newline index 1 is at least 1
when the guard is reached, and on window `"a\r"` the window length 2 and
final carriage-return index 1 satisfy the ambiguous-branch bounds. -/
theorem c10_no_underflow_witness :
    (1 : Nat) ≤ 1 ∧
    (2 ≤ ([97, 13] : List Nat).length ∧
      (([97, 13] : List Nat).length - 1 = 1 → (1 : Nat) ≤ 1)) :=
  ⟨(c10_no_underflow [13, 10] 1 0).1 rfl rfl (by omega),
   (c10_no_underflow [97, 13] 0 1).2 rfl rfl (by simp)⟩
